import Mathlib

/-!
Verification of the schematics model layer (`schematics/models.py`).

The Python module is shallowly embedded: Python dicts become association
lists over `String`, attribute access on a model instance is split between
the descriptor-managed value store `_data` and the plain instance
dictionary `idict`, and raised exceptions become `Except` and `Option`
results.  Field declarations (`schematics.types.BaseType`) live outside
the module under study; their validation rules and storage keys are
carried as opaque data inside `FieldT`.
-/

namespace Schematics

/-- Python values relevant to the claims: `None`, strings and integers. -/
inductive Value where
  | vnone
  | vstr (s : String)
  | vint (n : Int)
deriving DecidableEq

/-- Python dict lookup `d.get(k)` on an association list (first matching key;
keys of a Python dict are unique). -/
def lk {α : Type} (k : String) : List (String × α) → Option α
  | [] => none
  | kv :: t => if kv.1 = k then some kv.2 else lk k t

/-- Python dict assignment `d[k] = v`: overwrite the entry in place if the
key is present, otherwise append a fresh entry. -/
def setKV {α : Type} : List (String × α) → String → α → List (String × α)
  | [], k, v => [(k, v)]
  | kv :: t, k, v => if kv.1 = k then (k, v) :: t else kv :: setKV t k v

/-- Python `d.pop(k, None)` / `del d[k]` restricted to its effect on keys. -/
def delK {α : Type} (l : List (String × α)) (k : String) : List (String × α) :=
  l.filter (fun kv => kv.1 != k)

theorem lk_setKV_self {α : Type} (l : List (String × α)) (k : String) (v : α) :
    lk k (setKV l k v) = some v := by
  induction l with
  | nil => simp [lk, setKV]
  | cons kv t ih =>
    by_cases h : kv.1 = k <;> simp [lk, setKV, h, ih]

theorem lk_setKV_ne {α : Type} (l : List (String × α)) (k k' : String) (v : α)
    (h : k' ≠ k) : lk k' (setKV l k v) = lk k' l := by
  have h' : ¬k = k' := fun hh => h hh.symm
  induction l with
  | nil => simp [lk, setKV, h']
  | cons kv t ih =>
    by_cases h1 : kv.1 = k
    · subst h1
      simp [lk, setKV, h']
    · by_cases h2 : kv.1 = k' <;> simp [lk, setKV, h1, h2, h', h, ih]

theorem lk_isSome_of_mem {α : Type} {l : List (String × α)} {k : String}
    (h : k ∈ l.map Prod.fst) : (lk k l).isSome := by
  induction l with
  | nil => simp at h
  | cons kv t ih =>
    by_cases h1 : kv.1 = k
    · simp [lk, h1]
    · simp only [List.map_cons, List.mem_cons] at h
      rcases h with h | h

      · exact absurd h.symm h1
      · simp [lk, h1, ih h]

theorem lk_delK_self {α : Type} (l : List (String × α)) (k : String) :
    lk k (delK l k) = none := by
  induction l with
  | nil => simp [lk, delK]
  | cons kv t ih =>
    by_cases h : kv.1 = k <;> simp [delK, List.filter_cons, h, lk, ih] <;>
      simpa [delK] using ih

/-- A Python `TypeException(msg, field_name, value)` as raised and caught by
`models.py` (the exception class itself comes from `schematics.base`). -/
structure TypeErr where
  msg : String
  field_name : String
  value : Value
deriving DecidableEq

/-- Outcome of the external `BaseType._validate` call as observed by
`BaseModel.validate`: success, a `TypeException`, or one of the three other
exception kinds the method catches (`ValueError`, `AttributeError`,
`AssertionError`). -/
inductive PyExc where
  | typeExc (e : TypeErr)
  | valueError
  | attributeError
  | assertionError
deriving DecidableEq

/-- Modelled from the spec: a field declaration (`schematics.types.BaseType`
is imported by `models.py` but its definition is not part of this module).
Spec 3: "Field declaration: name, required flag, validation rule, optional
alternate-name mapping, optional unique identifier marking."  The two
validation entry points used by `models.py` — `_validate` (called by
`BaseModel.validate`) and `validate` (called by `_validate_helper`) — are
external rules carried as opaque functions (`none` means the call
succeeded).  `default` is `Value.vnone` when the field has no default. -/
structure FieldT where
  field_name : String
  required : Bool
  minimized_field_name : Option String
  uniq_field : String
  default : Value
  validateM : Value → Option PyExc
  validateC : Value → Option TypeErr

/-- A model instance.  `_data` is the descriptor-managed value store keyed
by field name (spec 3: "Instance: holds a mapping from field name to current
value"); `idict` is the plain Python instance `__dict__`, which receives
`setattr` writes for names that have no field descriptor on the class. -/
structure Instance where
  _data : List (String × Value)
  idict : List (String × Value)

/-- Modelled from the spec: `getattr` on a model instance.  A declared field
is a data descriptor storing into the instance value mapping; an entry that
is unset or `None` reads back as the field's default (spec 4.2 "first assign
its default (if any)").  Any other attribute is looked up in the plain
instance dictionary; `none` is an `AttributeError`. -/
def getattrI (fields : List (String × FieldT)) (inst : Instance) (name : String) :
    Option Value :=
  match lk name fields with
  | some f =>
    match lk name inst._data with
    | some v => if v = Value.vnone then some f.default else some v
    | none => some f.default
  | none => lk name inst.idict

/-- Modelled from the spec: `setattr` on a model instance.  The data
descriptor of a declared field stores into `_data`; any other name lands in
the plain instance dictionary.  Neither write raises. -/
def setattrI (fields : List (String × FieldT)) (inst : Instance) (name : String)
    (v : Value) : Instance :=
  if (lk name fields).isSome then ⟨setKV inst._data name v, inst.idict⟩
  else ⟨inst._data, setKV inst.idict name v⟩

/-- First loop of `BaseModel.__init__` (models.py 131-134), default pass:
`value = getattr(self, attr_name, None); setattr(self, attr_name, value)`
for every item of `self._fields`. -/
def initDefaults (fields : List (String × FieldT)) :
    List (String × FieldT) → Instance → Instance
  | [], inst => inst
  | kv :: rest, inst =>
    initDefaults fields rest
      (setattrI fields inst kv.1 ((getattrI fields inst kv.1).getD Value.vnone))

/-- The `minimized_field_map` built in the first loop of `__init__`
(models.py 135-137): for each field with a `minimized_field_name`, map that
short name to the field's `uniq_field`.  The source builds this map in the
same loop as the default pass; the map depends only on field metadata and
the default pass only on the value store, so the two passes commute. -/
def minimizedFieldMap : List (String × FieldT) → List (String × String) →
    List (String × String)
  | [], m => m
  | kv :: rest, m =>
    match kv.2.minimized_field_name with
    | some fn => minimizedFieldMap rest (setKV m fn kv.2.uniq_field)
    | none => minimizedFieldMap rest m

/-- Second loop of `BaseModel.__init__` (models.py 140-147): overlay the
caller-supplied values; a key that is a minimized field name additionally
assigns the value under the field's `uniq_field`.  The
`except AttributeError: pass` guard never fires in this model: plain
attribute writes on these instances do not raise. -/
def initValues (fields : List (String × FieldT)) (mfm : List (String × String)) :
    List (String × Value) → Instance → Instance
  | [], inst => inst
  | kv :: rest, inst =>
    initValues fields mfm rest
      (match lk kv.1 mfm with
       | some u => setattrI fields (setattrI fields inst kv.1 kv.2) u kv.2
       | none => setattrI fields inst kv.1 kv.2)

/-- `BaseModel.__init__(**values)` (models.py 126-147). -/
def initI (fields : List (String × FieldT)) (values : List (String × Value)) :
    Instance :=
  initValues fields (minimizedFieldMap fields []) values
    (initDefaults fields fields ⟨[], []⟩)

/-- `BaseModel.__getitem__` (models.py 202-210): return the attribute value
when the name is a declared field, else raise `KeyError` (here `none`).  An
`AttributeError` escaping `getattr` would also surface as `KeyError`. -/
def getitemI (fields : List (String × FieldT)) (inst : Instance) (name : String) :
    Option Value :=
  if (lk name fields).isSome then getattrI fields inst name else none

/-- `BaseModel.__contains__` (models.py 220-225): `val = getattr(self, name);
return val is not None`, with `False` on `AttributeError`. -/
def containsI (fields : List (String × FieldT)) (inst : Instance) (name : String) :
    Bool :=
  match getattrI fields inst name with
  | some v => decide (v ≠ Value.vnone)
  | none => false

/-- The `keys` local of `BaseModel.__eq__` (models.py 232-234): it aliases
the class-level dict `self._fields`, and `keys.pop("id", None)` mutates that
shared dict in place when the other object lacks an `id` attribute. -/
def eqKeys (fields : List (String × FieldT)) (otherHasId : Bool) :
    List (String × FieldT) :=
  if otherHasId then fields else delK fields "id"

/-- The comparison loop of `BaseModel.__eq__` (models.py 235-238):
`if self[key] != other[key]: return False`.  A `KeyError` escaping
`__getitem__` is `none`. -/
def eqLoop (fields : List (String × FieldT)) (self other : Instance) :
    List String → Option Bool
  | [] => some true
  | k :: rest =>
    match getitemI fields self k, getitemI fields other k with
    | some a, some b => if a ≠ b then some false else eqLoop fields self other rest
    | _, _ => none

/-- `BaseModel.__eq__` (models.py 230-239).  `sameClass` is the outcome of
`isinstance(other, self.__class__)`.  `otherHasId` is the outcome of
`hasattr(other, 'id')`: attribute reads resolve through descriptor code in
`schematics.types`, which is not part of this module, and the spec (4.4)
allows attribute access to "raise internally", so that outcome is an input
here.  The second component is the class-level `_fields` dict after the
call: `keys` aliases it, so the `pop` is an in-place update visible to every
later user of the class. -/
def eqI (fields : List (String × FieldT)) (self other : Instance)
    (sameClass otherHasId : Bool) : Option Bool × List (String × FieldT) :=
  if sameClass then
    (eqLoop (eqKeys fields otherHasId) self other
      ((eqKeys fields otherHasId).map Prod.fst), eqKeys fields otherHasId)
  else (some false, fields)

/-- Errors raised by `BaseModel.validate`: a field-level `TypeException` or
the aggregate `ModelException(model name, error list)`. -/
inductive VErr where
  | typeE (e : TypeErr)
  | modelE (modelName : String) (errs : List TypeErr)
deriving DecidableEq

/-- Loop body of `BaseModel.validate` (models.py 166-180) for one field:
a present, non-empty value is checked by the field's `_validate` rule
(a raised `TypeException` is kept, the other caught exception kinds are
wrapped as `TypeException('Invalid value', ...)`); an absent or empty value
of a required field yields `'Required field missing'`. -/
def fieldErr (fields : List (String × FieldT)) (inst : Instance)
    (kv : String × FieldT) : Option TypeErr :=
  let value := (getattrI fields inst kv.1).getD Value.vnone
  if value ≠ Value.vnone ∧ value ≠ Value.vstr "" then
    match kv.2.validateM value with
    | none => none
    | some (PyExc.typeExc e) => some e
    | some _ => some ⟨"Invalid value", kv.2.field_name, value⟩
  else if kv.2.required then
    some ⟨"Required field missing", kv.2.field_name, value⟩
  else none

/-- The field loop of `BaseModel.validate` (models.py 165-188): collect
errors, raising the first one when `validate_all` is false. -/
def validateLoop (fields : List (String × FieldT)) (inst : Instance)
    (validate_all : Bool) : List (String × FieldT) → List TypeErr →
    Except VErr (List TypeErr)
  | [], errs => .ok errs
  | kv :: rest, errs =>
    match fieldErr fields inst kv with
    | some e =>
      if validate_all then validateLoop fields inst validate_all rest (errs ++ [e])
      else .error (.typeE e)
    | none => validateLoop fields inst validate_all rest errs

/-- `BaseModel.validate(validate_all)` (models.py 154-192).  `modelName` is
`self._model_name`. -/
def validate (modelName : String) (fields : List (String × FieldT))
    (inst : Instance) (validate_all : Bool) : Except VErr Bool :=
  match validateLoop fields inst validate_all fields [] with
  | .error e => .error e
  | .ok errs => if errs.isEmpty then .ok true else .error (.modelE modelName errs)

/-- Errors escaping `_validate_helper`: a Python `KeyError` from
`values[k]`, or the first `TypeException` re-raised when `validate_all` is
false. -/
inductive HErr where
  | keyError (k : String)
  | typeE (e : TypeErr)
deriving DecidableEq

/-- Normal return of `_validate_helper`: the exception list when
`validate_all` is true, the constant `True` otherwise. -/
inductive HelperRes where
  | retErrors (l : List TypeErr)
  | retTrue
deriving DecidableEq

/-- The common-id rename in the `_validate_helper` loop (models.py 370-372):
`if k is 'id': k = '_id'` (CPython interns these short literals, so `is`
behaves as string equality there). -/
def renKey (k : String) : String :=
  if k = "id" then "_id" else k

/-- The empty-string test of `_validate_helper` (models.py 382-384):
`isinstance(datum, (str, unicode)) and len(datum.strip()) == 0`.  Stripping
leaves the empty string exactly when every character is whitespace. -/
def isEmptyStr : Value → Bool
  | Value.vstr s => s.data.all (fun c => c.isWhitespace)
  | _ => false

/-- The field loop of `_validate_helper` (models.py 367-388), carrying the
`exceptions` and `class_fields` accumulators.  Per field: rename `id` to
`_id`, record the key for rogue removal (when `delete_rogues`), and when the
inspector selects the field, fetch `values[k]` — a `KeyError` when the key
is absent — then skip `None` and blank-string data, and run the field's
external `validate` rule, collecting or raising its `TypeException`. -/
def vhLoop (values : List (String × Value)) (inspector : String → FieldT → Bool)
    (validate_all delete_rogues : Bool) :
    List (String × FieldT) → List TypeErr → List String →
    Except HErr (List TypeErr × List String)
  | [], excs, cfs => .ok (excs, cfs)
  | kv :: rest, excs, cfs =>
    let k := renKey kv.1
    let cfs' := if delete_rogues then cfs ++ [k] else cfs
    if inspector k kv.2 then
      match lk k values with
      | none => .error (.keyError k)
      | some datum =>
        if datum = Value.vnone then
          vhLoop values inspector validate_all delete_rogues rest excs cfs'
        else if isEmptyStr datum then
          vhLoop values inspector validate_all delete_rogues rest excs cfs'
        else
          match kv.2.validateC datum with
          | some e =>
            if validate_all then
              vhLoop values inspector validate_all delete_rogues rest (excs ++ [e]) cfs'
            else .error (.typeE e)
          | none => vhLoop values inspector validate_all delete_rogues rest excs cfs'
    else vhLoop values inspector validate_all delete_rogues rest excs cfs'

/-- `_validate_helper(cls, field_inspector, values, validate_all,
delete_rogues)` (models.py 344-400).  The class is represented by its
`_fields`; the `hasattr(cls, '_fields')` guard is therefore always
satisfied.  The second component of a normal result is the `values` dict
after the in-place rogue removal (models.py 390-394), which only happens
when the accumulated `class_fields` list is non-empty and the loop raised
nothing. -/
def _validate_helper (fields : List (String × FieldT))
    (field_inspector : String → FieldT → Bool) (values : List (String × Value))
    (validate_all delete_rogues : Bool) :
    Except HErr (HelperRes × List (String × Value)) :=
  match vhLoop values field_inspector validate_all delete_rogues fields [] [] with
  | .error e => .error e
  | .ok (excs, cfs) =>
    let values' :=
      if cfs.length > 0 then values.filter (fun kv => cfs.contains kv.1) else values
    if validate_all then .ok (.retErrors excs, values')
    else .ok (.retTrue, values')

/-- `validate_class_fields` (models.py 402-408): inspector
`lambda k, v: v.required or k in values`. -/
def validate_class_fields (fields : List (String × FieldT))
    (values : List (String × Value)) (validate_all : Bool) :
    Except HErr (HelperRes × List (String × Value)) :=
  _validate_helper fields (fun k v => v.required || (lk k values).isSome)
    values validate_all true

/-- `validate_class_partial` (models.py 410-417): inspector
`lambda k, v: k in values`. -/
def validate_class_partial (fields : List (String × FieldT))
    (values : List (String × Value)) (validate_all : Bool) :
    Except HErr (HelperRes × List (String × Value)) :=
  _validate_helper fields (fun k _ => (lk k values).isSome) values validate_all true

/-- A model class as produced by `ModelMetaclass.__new__` (models.py
89-112): `__name__`, the `_model_name` attribute, the `_fields` dict, and
the `id` class attribute that `swap_field` installs (models.py 287).  The
`_options` record is not involved in any claim and is omitted;
`_superclasses`, read into an unused local by `swap_field`, is set by the
`TopLevelModelMetaclass` named in `__all__` but not defined in this
module. -/
structure ModelClass where
  name : String
  _model_name : String
  _fields : List (String × FieldT)
  idAttr : Option FieldT

/-- `attrs[name].field_name = name` performed by `_extract_fields`
(models.py 79). -/
def setFieldName (f : FieldT) (n : String) : FieldT :=
  ⟨n, f.required, f.minimized_field_name, f.uniq_field, f.default,
    f.validateM, f.validateC⟩

/-- Python `d.update(e)`. -/
def dictUpdate {α : Type} (d e : List (String × α)) : List (String × α) :=
  e.foldl (fun m kv => setKV m kv.1 kv.2) d

/-- `_extract_fields(bases, attrs)` (models.py 63-82): start from a fresh
empty dict, merge each base's `_fields` into it, then add the field
declarations found among the attributes, stamping their names.  The bases
are represented by their `_fields` dicts. -/
def _extract_fields (bases : List (List (String × FieldT)))
    (attrs : List (String × FieldT)) : List (String × FieldT) :=
  attrs.foldl (fun m kv => setKV m kv.1 (setFieldName kv.2 kv.1))
    (bases.foldl (fun m bf => dictUpdate m bf) [])

/-- `ModelMetaclass.__new__(cls, name, bases, attrs)` (models.py 90-112):
the produced class carries `_fields = _extract_fields(bases, attrs)` and
`_model_name = name`; a class attribute `id` is inherited from the first
base that has one. -/
def ModelMetaclass_new (name : String) (bases : List ModelClass)
    (attrs : List (String × FieldT)) : ModelClass :=
  ⟨name, name, _extract_fields (bases.map (fun b => b._fields)) attrs,
    bases.findSome? (fun b => b.idAttr)⟩

/-- The field-replacement loop of `swap_field` (models.py 281-285): the
field named `id` is rebuilt with `uniq_field='_id'`, every other listed
field with the constructor's defaults (`is` on these interned literals is
string equality). -/
def swapFields (new_field : Option String → FieldT) :
    List String → List (String × FieldT) → List (String × FieldT)
  | [], m => m
  | f :: rest, m =>
    if f = "id" then swapFields new_field rest (setKV m f (new_field (some "_id")))
    else swapFields new_field rest (setKV m f (new_field none))

/-- `swap_field(klass, new_field, fields)` (models.py 261-288).  The locals
`cn = klass._model_name` and `sc = klass._superclasses` are read and never
used, as is the empty `fields_dict`; `new_klass = type(klass_name, (klass,),
{})` goes through `ModelMetaclass.__new__`, so `new_klass._fields` is a
fresh dict merged from the original — the in-place updates below touch the
copy, not `klass._fields`.  The final `new_klass._fields['id']` read raises
`KeyError` (`none`) when no `id` field exists. -/
def swap_field (klass : ModelClass) (new_field : Option String → FieldT)
    (fields : List String) : Option ModelClass :=
  match ModelMetaclass_new klass.name [klass] [] with
  | new_klass =>
    match swapFields new_field fields new_klass._fields with
    | newFields =>
      match lk "id" newFields with
      | none => none
      | some idf => some ⟨new_klass.name, new_klass._model_name, newFields, some idf⟩

/-- `diff_id_field(id_field, field_list, *arg)` (models.py 291-307) in its
decorator form; the direct-call form with a third argument applies this
very function to it. -/
def diff_id_field (id_field : Option String → FieldT) (field_list : List String) :
    ModelClass → Option ModelClass :=
  fun klass => swap_field klass id_field field_list

/-! ### Lemmas about the association-list operations and `__init__` -/

theorem lk_setKV_isSome_mono {α : Type} (l : List (String × α)) (k k' : String)
    (v : α) (h : (lk k l).isSome) : (lk k (setKV l k' v)).isSome := by
  by_cases he : k = k'
  · subst he; simp [lk_setKV_self]
  · rw [lk_setKV_ne l k' k v he]; exact h

theorem setattrI_idict_decl (fields : List (String × FieldT)) (inst : Instance)
    (name : String) (v : Value) (h : (lk name fields).isSome) :
    (setattrI fields inst name v).idict = inst.idict := by
  simp [setattrI, h]

theorem setattrI_idict_undecl (fields : List (String × FieldT)) (inst : Instance)
    (name : String) (v : Value) (h : lk name fields = none) :
    (setattrI fields inst name v).idict = setKV inst.idict name v := by
  simp [setattrI, h]

theorem setattrI_data_decl (fields : List (String × FieldT)) (inst : Instance)
    (name : String) (v : Value) (h : (lk name fields).isSome) :
    (setattrI fields inst name v)._data = setKV inst._data name v := by
  simp [setattrI, h]

theorem setattrI_data_undecl (fields : List (String × FieldT)) (inst : Instance)
    (name : String) (v : Value) (h : lk name fields = none) :
    (setattrI fields inst name v)._data = inst._data := by
  simp [setattrI, h]

theorem lk_setattrI_data_ne (fields : List (String × FieldT)) (inst : Instance)
    (name k : String) (v : Value) (h : k ≠ name) :
    lk k (setattrI fields inst name v)._data = lk k inst._data := by
  by_cases hd : (lk name fields).isSome
  · rw [setattrI_data_decl fields inst name v hd, lk_setKV_ne _ _ _ _ h]
  · rw [setattrI_data_undecl fields inst name v (by
      cases he : lk name fields with
      | none => rfl
      | some f => rw [he] at hd; simp at hd)]

theorem lk_setattrI_data_mono (fields : List (String × FieldT)) (inst : Instance)
    (name k : String) (v : Value) (h : (lk k inst._data).isSome) :
    (lk k (setattrI fields inst name v)._data).isSome := by
  by_cases hd : (lk name fields).isSome
  · rw [setattrI_data_decl fields inst name v hd]
    exact lk_setKV_isSome_mono _ _ _ _ h
  · rw [setattrI_data_undecl fields inst name v (by
      cases he : lk name fields with
      | none => rfl
      | some f => rw [he] at hd; simp at hd)]
    exact h

theorem initDefaults_idict (fields : List (String × FieldT)) :
    ∀ (l : List (String × FieldT)) (inst : Instance),
      (∀ k ∈ l.map Prod.fst, (lk k fields).isSome) →
      (initDefaults fields l inst).idict = inst.idict := by
  intro l
  induction l with
  | nil => intro inst _; rfl
  | cons kv rest ih =>
    intro inst h
    have hk : (lk kv.1 fields).isSome := h kv.1 (by simp)
    have hr : ∀ k ∈ rest.map Prod.fst, (lk k fields).isSome := by
      intro k hkm; exact h k (by simp [hkm])
    simp only [initDefaults]
    rw [ih _ hr]
    exact setattrI_idict_decl fields inst kv.1 _ hk

theorem initDefaults_data_mono (fields : List (String × FieldT)) :
    ∀ (l : List (String × FieldT)) (inst : Instance) (k : String),
      (lk k inst._data).isSome →
      (lk k (initDefaults fields l inst)._data).isSome := by
  intro l
  induction l with
  | nil => intro inst k h; exact h
  | cons kv rest ih =>
    intro inst k h
    simp only [initDefaults]
    exact ih _ k (lk_setattrI_data_mono fields inst kv.1 k _ h)

theorem initDefaults_data_mem (fields : List (String × FieldT)) :
    ∀ (l : List (String × FieldT)) (inst : Instance) (k : String),
      k ∈ l.map Prod.fst →
      (∀ k' ∈ l.map Prod.fst, (lk k' fields).isSome) →
      (lk k (initDefaults fields l inst)._data).isSome := by
  intro l
  induction l with
  | nil => intro inst k h _; simp at h
  | cons kv rest ih =>
    intro inst k h hall
    have hr : ∀ k' ∈ rest.map Prod.fst, (lk k' fields).isSome := by
      intro k' hkm; exact hall k' (by simp [hkm])
    simp only [List.map_cons, List.mem_cons] at h
    simp only [initDefaults]
    rcases h with h | h
    · have hd : (lk kv.1 fields).isSome := hall kv.1 (by simp)
      apply initDefaults_data_mono
      rw [setattrI_data_decl fields inst kv.1 _ hd, h]
      simp [lk_setKV_self]
    · exact ih _ k h hr

theorem initDefaults_data_notmem (fields : List (String × FieldT)) :
    ∀ (l : List (String × FieldT)) (inst : Instance) (k : String),
      k ∉ l.map Prod.fst →
      lk k (initDefaults fields l inst)._data = lk k inst._data := by
  intro l
  induction l with
  | nil => intro inst k _; rfl
  | cons kv rest ih =>
    intro inst k h
    simp only [List.map_cons, List.mem_cons, not_or] at h
    simp only [initDefaults]
    rw [ih _ k h.2]
    exact lk_setattrI_data_ne fields inst kv.1 k _ h.1

theorem initDefaults_data_val (fields : List (String × FieldT)) (name : String)
    (f : FieldT) (hf : lk name fields = some f) :
    ∀ (l : List (String × FieldT)) (inst : Instance),
      (l.map Prod.fst).Nodup → name ∈ l.map Prod.fst →
      lk name inst._data = none →
      lk name (initDefaults fields l inst)._data = some f.default := by
  intro l
  induction l with
  | nil => intro inst _ h _; simp at h
  | cons kv rest ih =>
    intro inst hnd hmem hnone
    simp only [List.map_cons, List.nodup_cons] at hnd
    simp only [List.map_cons, List.mem_cons] at hmem
    simp only [initDefaults]
    rcases hmem with h | h
    · subst h
      rw [initDefaults_data_notmem fields rest _ kv.1 hnd.1]
      have hval : (getattrI fields inst kv.1).getD Value.vnone = f.default := by
        simp [getattrI, hf, hnone]
      rw [hval]
      rw [setattrI_data_decl fields inst kv.1 _ (by simp [hf]), lk_setKV_self]
    · have hne : kv.1 ≠ name := by
        intro he; rw [he] at hnd; exact hnd.1 h
      apply ih _ hnd.2 h
      rw [lk_setattrI_data_ne fields inst kv.1 name _ (fun hh => hne hh.symm)]
      exact hnone

theorem lk_eq_none_of_notmem {α : Type} :
    ∀ (l : List (String × α)) (k : String), k ∉ l.map Prod.fst → lk k l = none := by
  intro l
  induction l with
  | nil => intro k _; rfl
  | cons kv t ih =>
    intro k h
    simp only [List.map_cons, List.mem_cons, not_or] at h
    simp [lk, Ne.symm h.1, ih k h.2]

/-! ### Characterization of the `BaseModel.validate` loop -/

theorem validateLoop_false (fields : List (String × FieldT)) (inst : Instance) :
    ∀ (l : List (String × FieldT)) (errs : List TypeErr),
      validateLoop fields inst false l errs =
        match l.findSome? (fieldErr fields inst) with
        | some e => .error (.typeE e)
        | none => .ok errs := by
  intro l
  induction l with
  | nil => intro errs; rfl
  | cons kv rest ih =>
    intro errs
    simp only [validateLoop, List.findSome?_cons]
    cases fieldErr fields inst kv with
    | some e => rfl
    | none => exact ih errs

theorem validateLoop_true (fields : List (String × FieldT)) (inst : Instance) :
    ∀ (l : List (String × FieldT)) (errs : List TypeErr),
      validateLoop fields inst true l errs =
        .ok (errs ++ l.filterMap (fieldErr fields inst)) := by
  intro l
  induction l with
  | nil => intro errs; simp [validateLoop]
  | cons kv rest ih =>
    intro errs
    simp only [validateLoop, List.filterMap_cons]
    cases fieldErr fields inst kv with
    | some e => simp [ih]
    | none => exact ih errs

/-! ### Characterization of the `_validate_helper` loop -/

theorem vhLoop_ok_cfs (values : List (String × Value))
    (inspector : String → FieldT → Bool) (va : Bool) :
    ∀ (l : List (String × FieldT)) (excs : List TypeErr) (cfs : List String)
      (r : List TypeErr × List String),
      vhLoop values inspector va true l excs cfs = .ok r →
      r.2 = cfs ++ l.map (fun kv => renKey kv.1) := by
  intro l
  induction l with
  | nil =>
    intro excs cfs r h
    simp only [vhLoop] at h
    cases h
    simp
  | cons kv rest ih =>
    intro excs cfs r h
    simp only [vhLoop, if_true] at h
    split at h
    · split at h
      · cases h
      · split at h
        · rw [ih _ _ _ h]; simp
        · split at h
          · rw [ih _ _ _ h]; simp
          · split at h
            · split at h
              · rw [ih _ _ _ h]; simp
              · cases h
            · rw [ih _ _ _ h]; simp
    · rw [ih _ _ _ h]; simp

/-! ### Characterization of the `__eq__` comparison loop -/

theorem getattrI_isSome_of_decl (fields : List (String × FieldT)) (inst : Instance)
    (name : String) (h : (lk name fields).isSome) :
    (getattrI fields inst name).isSome := by
  cases he : lk name fields with
  | none => rw [he] at h; simp at h
  | some f =>
    cases hd : lk name inst._data with
    | none => simp [getattrI, he, hd]
    | some v => by_cases hv : v = Value.vnone <;> simp [getattrI, he, hd, hv]

theorem getitemI_eq_getattrI (fields : List (String × FieldT)) (inst : Instance)
    (name : String) (h : (lk name fields).isSome) :
    getitemI fields inst name = getattrI fields inst name := by
  simp [getitemI, h]

theorem eqLoop_char (fields : List (String × FieldT)) (self other : Instance) :
    ∀ (ks : List String), (∀ k ∈ ks, (lk k fields).isSome) →
      ((eqLoop fields self other ks = some true ↔
        ∀ k ∈ ks, getitemI fields self k = getitemI fields other k)
      ∧ (eqLoop fields self other ks).isSome) := by
  intro ks
  induction ks with
  | nil => intro _; refine ⟨?_, ?_⟩ <;> simp [eqLoop]
  | cons k rest ih =>
    intro hall
    have hk : (lk k fields).isSome := hall k (by simp)
    have hrest : ∀ k' ∈ rest, (lk k' fields).isSome := by
      intro k' h'; exact hall k' (by simp [h'])
    obtain ⟨ihiff, ihsome⟩ := ih hrest
    obtain ⟨a, ha⟩ := Option.isSome_iff_exists.mp
      (getattrI_isSome_of_decl fields self k hk)
    obtain ⟨b, hb⟩ := Option.isSome_iff_exists.mp
      (getattrI_isSome_of_decl fields other k hk)
    have hga : getitemI fields self k = some a := by
      rw [getitemI_eq_getattrI fields self k hk]; exact ha
    have hgb : getitemI fields other k = some b := by
      rw [getitemI_eq_getattrI fields other k hk]; exact hb
    by_cases hab : a = b
    · subst hab
      have hstep : eqLoop fields self other (k :: rest) =
          eqLoop fields self other rest := by
        simp [eqLoop, hga, hgb]
      refine ⟨?_, ?_⟩
      · rw [hstep, ihiff]
        constructor
        · intro hr k' hk'
          simp only [List.mem_cons] at hk'
          rcases hk' with h' | h'
          · rw [h', hga, hgb]
          · exact hr k' h'
        · intro hr k' hk'
          exact hr k' (by simp [hk'])
      · rw [hstep]; exact ihsome
    · have hstep : eqLoop fields self other (k :: rest) = some false := by
        simp [eqLoop, hga, hgb, hab]
      refine ⟨?_, ?_⟩
      · rw [hstep]
        constructor
        · intro hr; cases hr
        · intro hr
          have := hr k (by simp)
          rw [hga, hgb] at this
          cases this
          exact absurd rfl hab
      · rw [hstep]; rfl

/-! ### Lemmas about `swap_field` and the metaclass copy -/

theorem swapFields_lk_notmem (new_field : Option String → FieldT) :
    ∀ (l : List String) (m : List (String × FieldT)) (g : String), g ∉ l →
      lk g (swapFields new_field l m) = lk g m := by
  intro l
  induction l with
  | nil => intro m g _; rfl
  | cons f rest ih =>
    intro m g h
    simp only [List.mem_cons, not_or] at h
    have hstep : swapFields new_field (f :: rest) m =
        swapFields new_field rest
          (setKV m f (if f = "id" then new_field (some "_id") else new_field none)) := by
      by_cases hf : f = "id" <;> simp [swapFields, hf]
    rw [hstep, ih _ g h.2, lk_setKV_ne _ _ _ _ h.1]

theorem swapFields_lk_mem (new_field : Option String → FieldT) :
    ∀ (l : List String) (m : List (String × FieldT)) (g : String), g ∈ l →
      lk g (swapFields new_field l m) =
        some (if g = "id" then new_field (some "_id") else new_field none) := by
  intro l
  induction l with
  | nil => intro m g h; simp at h
  | cons f rest ih =>
    intro m g h
    have hstep : swapFields new_field (f :: rest) m =
        swapFields new_field rest
          (setKV m f (if f = "id" then new_field (some "_id") else new_field none)) := by
      by_cases hf : f = "id" <;> simp [swapFields, hf]
    rw [hstep]
    by_cases hg : g ∈ rest
    · exact ih _ g hg
    · have hgf : g = f := by
        simp only [List.mem_cons] at h
        rcases h with h | h
        · exact h
        · exact absurd h hg
      subst hgf
      rw [swapFields_lk_notmem new_field rest _ g hg, lk_setKV_self]

theorem lk_dictUpdate_notmem {α : Type} :
    ∀ (e d : List (String × α)) (k : String), k ∉ e.map Prod.fst →
      lk k (dictUpdate d e) = lk k d := by
  intro e
  induction e with
  | nil => intro d k _; rfl
  | cons kv t ih =>
    intro d k h
    simp only [List.map_cons, List.mem_cons, not_or] at h
    simp only [dictUpdate, List.foldl_cons]
    rw [show (List.foldl (fun m kv => setKV m kv.1 kv.2) (setKV d kv.1 kv.2) t) =
      dictUpdate (setKV d kv.1 kv.2) t from rfl]
    rw [ih _ k h.2, lk_setKV_ne _ _ _ _ h.1]

theorem lk_dictUpdate_nodup {α : Type} :
    ∀ (e d : List (String × α)) (k : String), (e.map Prod.fst).Nodup →
      lk k (dictUpdate d e) =
        match lk k e with
        | some v => some v
        | none => lk k d := by
  intro e
  induction e with
  | nil => intro d k _; rfl
  | cons kv t ih =>
    intro d k hnd
    simp only [List.map_cons, List.nodup_cons] at hnd
    simp only [dictUpdate, List.foldl_cons]
    rw [show (List.foldl (fun m kv => setKV m kv.1 kv.2) (setKV d kv.1 kv.2) t) =
      dictUpdate (setKV d kv.1 kv.2) t from rfl]
    rw [ih _ k hnd.2]
    by_cases hk : kv.1 = k
    · subst hk
      rw [lk_eq_none_of_notmem t kv.1 hnd.1]
      simp [lk, lk_setKV_self]
    · cases ht : lk k t with
      | some v => simp [lk, hk, ht]
      | none => simp [lk, hk, ht, lk_setKV_ne _ _ _ _ (fun hh => hk hh.symm)]

theorem lk_extract_single (bf : List (String × FieldT))
    (hnd : (bf.map Prod.fst).Nodup) (g : String) :
    lk g (_extract_fields [bf] []) = lk g bf := by
  have : _extract_fields [bf] [] = dictUpdate [] bf := by
    simp [_extract_fields, dictUpdate]
  rw [this, lk_dictUpdate_nodup bf [] g hnd]
  cases lk g bf <;> simp [lk]

theorem mem_of_lk_isSome {α : Type} :
    ∀ (l : List (String × α)) (k : String), (lk k l).isSome → k ∈ l.map Prod.fst := by
  intro l
  induction l with
  | nil => intro k h; simp [lk] at h
  | cons kv t ih =>
    intro k h
    by_cases hk : kv.1 = k
    · simp [hk]
    · simp only [lk, hk, if_false] at h
      simp [ih k h]

/-! ### Concrete fixtures used by witnesses and counterexamples -/

/-- An external validation rule that always succeeds (`_validate` side). -/
def okValM : Value → Option PyExc := fun _ => none

/-- An external validation rule that always succeeds (`validate` side). -/
def okValC : Value → Option TypeErr := fun _ => none

/-- A required string-like field named `name`, no default, no alternate name. -/
def reqNameField : FieldT := ⟨"name", true, none, "name", Value.vnone, okValM, okValC⟩

/-- An optional field named `age`, no default. -/
def optAgeField : FieldT := ⟨"age", false, none, "age", Value.vnone, okValM, okValC⟩

/-- A field named `name` with minimized short name `n` and `uniq_field`
`nuq`. -/
def minNameField : FieldT := ⟨"name", false, some "n", "nuq", Value.vnone, okValM, okValC⟩

/-- A plain `id` field. -/
def idField0 : FieldT := ⟨"id", false, none, "id", Value.vnone, okValM, okValC⟩

/-- A field constructor in the sense of `swap_field`: its argument is the
`uniq_field` keyword. -/
def newIdField : Option String → FieldT :=
  fun u => ⟨"id", false, none, u.getD "", Value.vnone, okValM, okValC⟩

/-- A one-field schema with the required `name` field. -/
def cf1 : List (String × FieldT) := [("name", reqNameField)]

/-- An instance of that schema built with no arguments. -/
def ci1 : Instance := initI cf1 []

/-- A one-field schema with the optional `age` field. -/
def cf4 : List (String × FieldT) := [("age", optAgeField)]

/-- A one-field schema whose field has a minimized name. -/
def cf8 : List (String × FieldT) := [("name", minNameField)]

/-- A two-field schema declaring `id` and `name`. -/
def cf9 : List (String × FieldT) := [("id", idField0), ("name", reqNameField)]

/-- An instance of `cf9` built with no arguments. -/
def ci9 : Instance := initI cf9 []

/-- A concrete model class over `cf9`. -/
def klassDoc : ModelClass := ⟨"Doc", "Doc", cf9, none⟩

/-! ### Claims -/

/-- C1: `validate(validate_all=False)` raises the field-level error of the
first field whose value is invalid or absent-while-required;
`validate(validate_all=True)` raises a `ModelException` carrying the model
name and the full error list exactly when at least one field failed, and
returns `True` otherwise.  A value of `None` or the empty string counts as
absent, so a required field holding such a value yields the
`'Required field missing'` error. -/
theorem c1_validate (modelName : String) (fields : List (String × FieldT))
    (inst : Instance) :
    (validate modelName fields inst false =
      match fields.findSome? (fieldErr fields inst) with
      | some e => Except.error (VErr.typeE e)
      | none => Except.ok true)
    ∧ (validate modelName fields inst true =
      if fields.filterMap (fieldErr fields inst) = [] then Except.ok true
      else Except.error (VErr.modelE modelName
        (fields.filterMap (fieldErr fields inst))))
    ∧ (∀ kv : String × FieldT, kv.2.required = true →
        (getattrI fields inst kv.1 = some Value.vnone ∨
         getattrI fields inst kv.1 = some (Value.vstr "")) →
        fieldErr fields inst kv =
          some ⟨"Required field missing", kv.2.field_name,
                (getattrI fields inst kv.1).getD Value.vnone⟩) := by
  refine ⟨?_, ?_, ?_⟩
  · unfold validate
    rw [validateLoop_false fields inst fields []]
    cases fields.findSome? (fieldErr fields inst) <;> simp
  · unfold validate
    rw [validateLoop_true fields inst fields []]
    by_cases h : fields.filterMap (fieldErr fields inst) = [] <;> simp [h]
  · intro kv hreq hval
    rcases hval with h | h <;>
      · unfold fieldErr
        rw [h]
        simp [hreq]

/-- Witness for C1 at a concrete input: a required `name` field constructed
with no value produces the `'Required field missing'` error. -/
theorem c1_validate_witness :
    fieldErr cf1 ci1 ("name", reqNameField) =
      some ⟨"Required field missing", ("name", reqNameField).2.field_name,
            (getattrI cf1 ci1 "name").getD Value.vnone⟩ :=
  (c1_validate "M" cf1 ci1).2.2 ("name", reqNameField) rfl (Or.inl (by rfl))

/-- C2: the claim says a required field absent from the supplied values is
still checked by `validate_class_fields` and reported as a validation
error; the code instead crashes: the inspector selects the field because it
is required, and `datum = values[k]` (models.py 377) raises `KeyError`.
This theorem evaluates the embedding at the failing input — a class with
one required field `name` and an empty value dict. -/
theorem c2_required_absent_keyerror :
    validate_class_fields cf1 [] false = Except.error (HErr.keyError "name") := by
  rfl

/-- C7: constructing an instance with no arguments gives every declared
field an entry in the instance value store `_data`. -/
theorem c7_init_all_fields (fields : List (String × FieldT)) (name : String)
    (hmem : name ∈ fields.map Prod.fst) :
    (lk name (initI fields [])._data).isSome := by
  unfold initI
  simp only [initValues]
  exact initDefaults_data_mem fields fields ⟨[], []⟩ name hmem
    (fun k' hk' => lk_isSome_of_mem hk')

/-- Witness for C7: the `name` field of the one-field schema has a `_data`
entry after no-argument construction. -/
theorem c7_init_all_fields_witness :
    (lk "name" (initI cf1 [])._data).isSome :=
  c7_init_all_fields cf1 "name" (by decide)

/-- C10: for a declared field without a default, the membership test
returns `false` on a freshly constructed instance even though the field's
attribute exists (its `_data` entry is present, holding `None`). -/
theorem c10_contains_false (fields : List (String × FieldT)) (name : String)
    (f : FieldT) (hnd : (fields.map Prod.fst).Nodup)
    (hlk : lk name fields = some f) (hdef : f.default = Value.vnone) :
    containsI fields (initI fields []) name = false
    ∧ (lk name (initI fields [])._data).isSome := by
  have hmem : name ∈ fields.map Prod.fst :=
    mem_of_lk_isSome fields name (by simp [hlk])
  have hdata : lk name (initI fields [])._data = some f.default := by
    unfold initI
    simp only [initValues]
    exact initDefaults_data_val fields name f hlk fields ⟨[], []⟩ hnd hmem rfl
  refine ⟨?_, by rw [hdata]; rfl⟩
  have hattr : getattrI fields (initI fields []) name = some f.default := by
    simp [getattrI, hlk, hdata, hdef]
  simp [containsI, hattr, hdef]

/-- Witness for C10: the required no-default `name` field is reported as
not contained right after construction, while its `_data` entry exists. -/
theorem c10_contains_false_witness :
    containsI cf1 (initI cf1 []) "name" = false
    ∧ (lk "name" (initI cf1 [])._data).isSome :=
  c10_contains_false cf1 "name" reqNameField (by decide) (by rfl) rfl

/-- Unfolding of `swap_field` used in the proof of C3: the irrefutable
matches in the definition reduce to the final `KeyError`-guarded lookup. -/
theorem swap_field_eq (klass : ModelClass) (new_field : Option String → FieldT)
    (fields : List String) :
    swap_field klass new_field fields =
      match lk "id" (swapFields new_field fields
          (_extract_fields [klass._fields] [])) with
      | none => none
      | some idf => some ⟨klass.name, klass.name,
          swapFields new_field fields (_extract_fields [klass._fields] []),
          some idf⟩ := by
  rfl

/-- C3: `swap_field` (and `diff_id_field`, decorator or direct call)
returns a new subclass whose listed fields are freshly constructed, with
the `id` field built with `uniq_field='_id'` and installed as the class's
`id` attribute; the mutation happens on the metaclass's fresh copy of the
schema dict, so lookups outside the listed names still agree with the
original class's `_fields`, which is left unmodified. -/
theorem c3_swap_field (klass : ModelClass) (new_field : Option String → FieldT)
    (fields : List String) (hid : "id" ∈ fields)
    (hnd : (klass._fields.map Prod.fst).Nodup) :
    ∃ nk : ModelClass, swap_field klass new_field fields = some nk
      ∧ (∀ f ∈ fields, lk f nk._fields =
          some (if f = "id" then new_field (some "_id") else new_field none))
      ∧ nk.idAttr = some (new_field (some "_id"))
      ∧ (∀ g, g ∉ fields → lk g nk._fields = lk g klass._fields)
      ∧ diff_id_field new_field fields klass = swap_field klass new_field fields := by
  have hlkid : lk "id" (swapFields new_field fields
      (_extract_fields [klass._fields] [])) = some (new_field (some "_id")) := by
    rw [swapFields_lk_mem new_field fields _ "id" hid]
    simp
  refine ⟨⟨klass.name, klass.name,
    swapFields new_field fields (_extract_fields [klass._fields] []),
    some (new_field (some "_id"))⟩, ?_, ?_, rfl, ?_, rfl⟩
  · rw [swap_field_eq, hlkid]
  · intro f hf
    exact swapFields_lk_mem new_field fields _ f hf
  · intro g hg
    rw [swapFields_lk_notmem new_field fields _ g hg,
      lk_extract_single klass._fields hnd g]

/-- Witness for C3: swapping the `id` field of the concrete `Doc` class. -/
theorem c3_swap_field_witness :
    ∃ nk : ModelClass, swap_field klassDoc newIdField ["id"] = some nk
      ∧ (∀ f ∈ ["id"], lk f nk._fields =
          some (if f = "id" then newIdField (some "_id") else newIdField none))
      ∧ nk.idAttr = some (newIdField (some "_id"))
      ∧ (∀ g, g ∉ ["id"] → lk g nk._fields = lk g klassDoc._fields)
      ∧ diff_id_field newIdField ["id"] klassDoc =
          swap_field klassDoc newIdField ["id"] :=
  c3_swap_field klassDoc newIdField ["id"] (by decide) (by decide)

/-- C4 counterexample: the claim says a supplied value under an undeclared
key must not appear in the mapping view afterward, in particular the
membership test on it returns false; but `__init__`'s `setattr` stores the
rogue key as a plain instance attribute, so `__contains__` finds it and
returns true when the value is not `None`. -/
theorem c4_rogue_membership_counterexample :
    containsI cf4 (initI cf4 [("rogue", Value.vint 5)]) "rogue" = true
    ∧ lk "rogue" cf4 = none :=
  ⟨rfl, rfl⟩

/-- C4 amended: construction with a value under an undeclared key does not
raise (the constructor is total) and item access on that key still raises
`KeyError`; but the key is stored as a plain instance attribute, so the
membership test returns true exactly when the supplied value is not
`None` — not false as claimed. -/
theorem c4_rogue_amended (fields : List (String × FieldT)) (k : String)
    (v : Value) (hk : lk k fields = none) :
    getitemI fields (initI fields [(k, v)]) k = none
    ∧ getattrI fields (initI fields [(k, v)]) k = some v
    ∧ containsI fields (initI fields [(k, v)]) k = decide (v ≠ Value.vnone) := by
  have hidict0 : (initDefaults fields fields ⟨[], []⟩).idict = [] :=
    initDefaults_idict fields fields ⟨[], []⟩ (fun k' hk' => lk_isSome_of_mem hk')
  have hitem : getitemI fields (initI fields [(k, v)]) k = none := by
    simp [getitemI, hk]
  have h1 : (setattrI fields (initDefaults fields fields ⟨[], []⟩) k v).idict
      = [(k, v)] := by
    simp [setattrI, hk, hidict0, setKV]
  have hattr : getattrI fields (initI fields [(k, v)]) k = some v := by
    unfold initI
    simp only [initValues]
    cases hm : lk k (minimizedFieldMap fields []) with
    | none =>
      simp [getattrI, hk, h1, lk]
    | some u =>
      by_cases hu : (lk u fields).isSome
      · have h2 : (setattrI fields
            (setattrI fields (initDefaults fields fields ⟨[], []⟩) k v) u v).idict
            = [(k, v)] := by
          rw [setattrI_idict_decl _ _ _ _ hu, h1]
        simp [getattrI, hk, h2, lk]
      · have hu' : lk u fields = none := by
          cases he : lk u fields with
          | none => rfl
          | some f => rw [he] at hu; simp at hu
        have h2 : (setattrI fields
            (setattrI fields (initDefaults fields fields ⟨[], []⟩) k v) u v).idict
            = setKV [(k, v)] u v := by
          rw [setattrI_idict_undecl _ _ _ _ hu', h1]
        have h3 : lk k (setKV [(k, v)] u v) = some v := by
          by_cases huk : u = k
          · subst huk; simp [setKV, lk]
          · rw [lk_setKV_ne _ _ _ _ (fun hh => huk hh.symm)]
            simp [lk]
        simp [getattrI, hk, h2, h3]
  refine ⟨hitem, hattr, ?_⟩
  simp [containsI, hattr]

/-- Witness for C4 amended: the rogue key `rogue` with value `5`. -/
theorem c4_rogue_amended_witness :
    getitemI cf4 (initI cf4 [("rogue", Value.vint 5)]) "rogue" = none
    ∧ getattrI cf4 (initI cf4 [("rogue", Value.vint 5)]) "rogue" = some (Value.vint 5)
    ∧ containsI cf4 (initI cf4 [("rogue", Value.vint 5)]) "rogue"
        = decide (Value.vint 5 ≠ Value.vnone) :=
  c4_rogue_amended cf4 "rogue" (Value.vint 5) (by rfl)

/-- C5: for two instances of the same concrete class, `__eq__` returns
`True` exactly when every compared declared field has equal values on both
sides, where the compared fields are all declared fields except that `id`
is exempted when the other object lacks an `id` attribute (`eqKeys`); the
comparison always terminates in `True` or `False` for these keys. -/
theorem c5_eq_characterization (fields : List (String × FieldT))
    (self other : Instance) (otherHasId : Bool) :
    ((eqI fields self other true otherHasId).1 = some true ↔
      ∀ k ∈ (eqKeys fields otherHasId).map Prod.fst,
        getitemI (eqKeys fields otherHasId) self k =
        getitemI (eqKeys fields otherHasId) other k)
    ∧ ((eqI fields self other true otherHasId).1).isSome := by
  have hall : ∀ k ∈ (eqKeys fields otherHasId).map Prod.fst,
      (lk k (eqKeys fields otherHasId)).isSome := by
    intro k hk
    exact lk_isSome_of_mem hk
  have h := eqLoop_char (eqKeys fields otherHasId) self other
    ((eqKeys fields otherHasId).map Prod.fst) hall
  have heq : (eqI fields self other true otherHasId).1 =
      eqLoop (eqKeys fields otherHasId) self other
        ((eqKeys fields otherHasId).map Prod.fst) := by
    simp [eqI]
  rw [heq]
  exact h

/-- Rogue removal performed by `_validate_helper` when it returns
normally: the surviving entries of `values` are exactly those whose key is
among the (id-renamed) declared field keys; used by C6. -/
theorem validate_helper_rogue (fields : List (String × FieldT))
    (insp : String → FieldT → Bool) (values : List (String × Value)) (va : Bool)
    (hne : fields ≠ []) (r : HelperRes) (vs : List (String × Value))
    (h : _validate_helper fields insp values va true = .ok (r, vs)) :
    vs = values.filter
      (fun kv => decide (kv.1 ∈ fields.map (fun kv2 => renKey kv2.1))) := by
  unfold _validate_helper at h
  cases hv : vhLoop values insp va true fields [] [] with
  | error e => rw [hv] at h; cases h
  | ok p =>
    rw [hv] at h
    obtain ⟨excs, cfs⟩ := p
    have hcfs : cfs = fields.map (fun kv => renKey kv.1) := by
      have := vhLoop_ok_cfs values insp va fields [] [] (excs, cfs) hv
      simpa using this
    subst hcfs
    have hlen : (fields.map (fun kv => renKey kv.1)).length > 0 := by
      cases fields with
      | nil => exact absurd rfl hne
      | cons a l => simp
    dsimp only at h
    rw [if_pos hlen] at h
    cases va <;> simp at h <;> exact h.2.symm

/-- C6 counterexample: the claim says the helpers always strip undeclared
keys in place; but for a class with no declared fields the accumulated
`class_fields` list is empty, the removal branch is skipped (models.py
391), and the rogue entry survives the call. -/
theorem c6_rogue_removal_counterexample :
    validate_class_partial ([] : List (String × FieldT)) [("rogue", Value.vint 1)] true
      = Except.ok (HelperRes.retErrors [], [("rogue", Value.vint 1)])
    ∧ lk "rogue" ([] : List (String × FieldT)) = none :=
  ⟨rfl, rfl⟩

/-- C6 amended: provided the class declares at least one field and the
helper returns without raising, both `validate_class_fields` and
`validate_class_partial` mutate the value dict down to exactly the entries
whose key is a declared field key (with the declared `id` represented by
`_id`); with no declared fields, or when the call raises, no removal
happens. -/
theorem c6_rogue_removal_amended (fields : List (String × FieldT))
    (values : List (String × Value)) (va : Bool) (hne : fields ≠ []) :
    (∀ (r : HelperRes) (vs : List (String × Value)),
      validate_class_fields fields values va = .ok (r, vs) →
      vs = values.filter
        (fun kv => decide (kv.1 ∈ fields.map (fun kv2 => renKey kv2.1))))
    ∧ (∀ (r : HelperRes) (vs : List (String × Value)),
      validate_class_partial fields values va = .ok (r, vs) →
      vs = values.filter
        (fun kv => decide (kv.1 ∈ fields.map (fun kv2 => renKey kv2.1)))) :=
  ⟨fun r vs h => validate_helper_rogue fields _ values va hne r vs h,
   fun r vs h => validate_helper_rogue fields _ values va hne r vs h⟩

/-- Witness for C6 amended: partial validation of `cf1` against a dict
with one rogue and one declared key keeps exactly the declared entry. -/
theorem c6_rogue_removal_amended_witness :
    ([("name", Value.vstr "A")] : List (String × Value)) =
      ([("rogue", Value.vint 1), ("name", Value.vstr "A")] : List (String × Value)).filter
        (fun kv => decide (kv.1 ∈ cf1.map (fun kv2 => renKey kv2.1))) :=
  (c6_rogue_removal_amended cf1 [("rogue", Value.vint 1), ("name", Value.vstr "A")]
    false (by simp [cf1])).2 HelperRes.retTrue [("name", Value.vstr "A")] (by rfl)

/-- C8 counterexample: the claim says supplying a value under the field's
long declared name also assigns it under the field's `uniq_field`; but the
`minimized_field_map` is keyed by the short name (models.py 135-137), so
constructing with the long key `name` leaves the `nuq` attribute unset. -/
theorem c8_longname_counterexample :
    minNameField.minimized_field_name = some "n"
    ∧ minNameField.uniq_field = "nuq"
    ∧ getattrI cf8 (initI cf8 [("name", Value.vstr "A")]) "nuq" = none :=
  ⟨rfl, rfl, rfl⟩

/-- C8 amended: it is the field's minimized (short) name that triggers the
double assignment: constructing with a value keyed by the short name also
stores the value under the field's `uniq_field` (here an undeclared
attribute, hence in the plain instance dict). -/
theorem c8_minimized_amended (fields : List (String × FieldT)) (m : String)
    (v : Value) (u : String)
    (hm : lk m (minimizedFieldMap fields []) = some u)
    (hu : lk u fields = none) :
    getattrI fields (initI fields [(m, v)]) u = some v := by
  unfold initI
  simp only [initValues, hm]
  rw [getattrI]
  rw [hu]
  rw [setattrI_idict_undecl _ _ _ _ hu, lk_setKV_self]

/-- Witness for C8 amended: supplying the short name `n` stores the value
under `nuq`. -/
theorem c8_minimized_amended_witness :
    getattrI cf8 (initI cf8 [("n", Value.vstr "A")]) "nuq" = some (Value.vstr "A") :=
  c8_minimized_amended cf8 "n" (Value.vstr "A") "nuq" (by rfl) (by rfl)

/-- C9: when the other object lacks an `id` attribute, `__eq__` pops `id`
from the class-level `_fields` dict itself — `keys` aliases the shared
dict, so the component returned here models that dict after the call: the
`id` entry is gone (`lk` misses it) and the dict differs from the original,
for every later operation that consults the class schema. -/
theorem c9_eq_pops_id (fields : List (String × FieldT)) (self other : Instance)
    (hid : "id" ∈ fields.map Prod.fst) :
    (eqI fields self other true false).2 = delK fields "id"
    ∧ lk "id" (eqI fields self other true false).2 = none
    ∧ (eqI fields self other true false).2 ≠ fields := by
  have h2 : (eqI fields self other true false).2 = delK fields "id" := by
    simp [eqI, eqKeys]
  refine ⟨h2, ?_, ?_⟩
  · rw [h2]
    exact lk_delK_self fields "id"
  · rw [h2]
    intro he
    have h3 := lk_delK_self fields "id"
    rw [he] at h3
    have h4 := lk_isSome_of_mem hid
    rw [h3] at h4
    simp at h4

/-- Witness for C9: on the concrete two-field class declaring `id`, the
comparison against an object reported as lacking `id` leaves the class
schema without its `id` entry. -/
theorem c9_eq_pops_id_witness :
    (eqI cf9 ci9 ci9 true false).2 = delK cf9 "id"
    ∧ lk "id" (eqI cf9 ci9 ci9 true false).2 = none
    ∧ (eqI cf9 ci9 ci9 true false).2 ≠ cf9 :=
  c9_eq_pops_id cf9 ci9 ci9 (by decide)

end Schematics
